import Mathlib

/-
Verification of the Hargassner telnet client core
(custom_components/bauergroup_hargassnerintegration/telnet_client.py and
coordinator.py), shallowly embedded in Lean.

Bytes are modelled as natural numbers (< 256 where it matters), decoded text
as lists of characters, the receiver loop as a step function over an explicit
client state driven by one environment record per loop iteration (outcome of
the connect attempt, wall-clock time, outcome of the bounded read).  The
line-content parser (message_parser.py, an external collaborator of the core)
is an abstract function parameter; the configuration constants (const.py, not
part of the core sources) are abstract fields of a Config record.
-/

set_option maxRecDepth 4000

namespace Hargassner

/-- Decoded text: a list of characters (one protocol line or a whole chunk). -/
abbrev Line := List Char

/-- Whitespace as recognized by Python str.strip (the ASCII part: space, tab,
newline, carriage return, vertical tab, form feed). -/
def pySpace (c : Char) : Bool :=
  c == ' ' || c == '\t' || c == '\n' || c == '\r' || c.toNat == 11 || c.toNat == 12

/-- Python str.strip(): drop leading and trailing whitespace. -/
def pyStrip (l : Line) : Line :=
  ((l.dropWhile pySpace).reverse.dropWhile pySpace).reverse

/-- Helper for splitNL: accumulate the current piece (reversed). -/
def splitNLAux (acc : Line) : Line → List Line
  | [] => [acc.reverse]
  | c :: cs => if c == '\n' then acc.reverse :: splitNLAux [] cs else splitNLAux (c :: acc) cs

/-- Python text.split on a single newline separator: split on every
occurrence, keeping empty pieces. -/
def splitNL (l : Line) : List Line := splitNLAux [] l

/-! ### Frame decoder (telnet_client.py, _process_data lines 254-267)

The source tries `data.decode(enc)` for `enc` in `["utf-8", "latin-1",
"cp1252"]`, breaking on the first that does not raise UnicodeDecodeError, and
falls back to `data.decode("utf-8", errors="replace")` when all three failed.
Each codec is embedded from its real semantics: a byte-list partial decoding
function returning `none` exactly where the Python codec raises. -/

/-- UTF-8 continuation byte test (0x80..0xBF). -/
def isCont (b : Nat) : Bool := decide (0x80 ≤ b) && decide (b ≤ 0xBF)

/-- Closed-interval byte range test. -/
def inR (lo hi b : Nat) : Bool := decide (lo ≤ b) && decide (b ≤ hi)

/-- Three-byte UTF-8 lead test (0xE0..0xEF). -/
def isLead3 (b : Nat) : Bool := inR 0xE0 0xEF b

/-- Lower bound of the second byte of a three-byte sequence (0xA0 after 0xE0
to exclude overlong forms, 0x80 otherwise). -/
def lo3 (b : Nat) : Nat := if b == 0xE0 then 0xA0 else 0x80

/-- Upper bound of the second byte of a three-byte sequence (0x9F after 0xED
to exclude surrogates, 0xBF otherwise). -/
def hi3 (b : Nat) : Nat := if b == 0xED then 0x9F else 0xBF

/-- Four-byte UTF-8 lead test (0xF0..0xF4). -/
def isLead4 (b : Nat) : Bool := inR 0xF0 0xF4 b

/-- Lower bound of the second byte of a four-byte sequence (0x90 after 0xF0
to exclude overlong forms, 0x80 otherwise). -/
def lo4 (b : Nat) : Nat := if b == 0xF0 then 0x90 else 0x80

/-- Upper bound of the second byte of a four-byte sequence (0x8F after 0xF4
to stay below U+110000, 0xBF otherwise). -/
def hi4 (b : Nat) : Nat := if b == 0xF4 then 0x8F else 0xBF

/-- Code point of a two-byte sequence. -/
def utf8Char2 (b c1 : Nat) : Char :=
  Char.ofNat ((b - 0xC0) * 0x40 + (c1 - 0x80))

/-- Code point of a three-byte sequence. -/
def utf8Char3 (b c1 c2 : Nat) : Char :=
  Char.ofNat ((b - 0xE0) * 0x1000 + (c1 - 0x80) * 0x40 + (c2 - 0x80))

/-- Code point of a four-byte sequence. -/
def utf8Char4 (b c1 c2 c3 : Nat) : Char :=
  Char.ofNat ((b - 0xF0) * 0x40000 + (c1 - 0x80) * 0x1000 + (c2 - 0x80) * 0x40 + (c3 - 0x80))

/-- Python bytes.decode utf-8 strict (no overlong forms, no surrogates,
nothing above U+10FFFF): none exactly when the codec raises. -/
def utf8Decode : List Nat → Option Line
  | [] => some []
  | b :: rest =>
    if decide (b < 0x80) then (utf8Decode rest).map (fun cs => Char.ofNat b :: cs)
    else if inR 0xC2 0xDF b then
      match rest with
      | c1 :: rest2 =>
        if isCont c1 then (utf8Decode rest2).map (fun cs => utf8Char2 b c1 :: cs) else none
      | [] => none
    else if isLead3 b then
      match rest with
      | c1 :: c2 :: rest3 =>
        if inR (lo3 b) (hi3 b) c1 && isCont c2 then
          (utf8Decode rest3).map (fun cs => utf8Char3 b c1 c2 :: cs)
        else none
      | _ => none
    else if isLead4 b then
      match rest with
      | c1 :: c2 :: c3 :: rest4 =>
        if inR (lo4 b) (hi4 b) c1 && isCont c2 && isCont c3 then
          (utf8Decode rest4).map (fun cs => utf8Char4 b c1 c2 c3 :: cs)
        else none
      | _ => none
    else none

/-- Unicode replacement character U+FFFD. -/
def replacementChar : Char := Char.ofNat 0xFFFD

/-- Python bytes.decode utf-8 with errors equal replace: total; each maximal
ill-formed subpart (an invalid byte, or the longest valid prefix of a
truncated or broken sequence) becomes one U+FFFD. -/
def utf8Replace : List Nat → Line
  | [] => []
  | b :: rest =>
    if decide (b < 0x80) then Char.ofNat b :: utf8Replace rest
    else if inR 0xC2 0xDF b then
      match rest with
      | c1 :: rest2 =>
        if isCont c1 then utf8Char2 b c1 :: utf8Replace rest2
        else replacementChar :: utf8Replace (c1 :: rest2)
      | [] => [replacementChar]
    else if isLead3 b then
      match rest with
      | c1 :: c2 :: rest3 =>
        if inR (lo3 b) (hi3 b) c1 then
          if isCont c2 then utf8Char3 b c1 c2 :: utf8Replace rest3
          else replacementChar :: utf8Replace (c2 :: rest3)
        else replacementChar :: utf8Replace (c1 :: c2 :: rest3)
      | [c1] =>
        if inR (lo3 b) (hi3 b) c1 then [replacementChar]
        else replacementChar :: utf8Replace [c1]
      | [] => [replacementChar]
    else if isLead4 b then
      match rest with
      | c1 :: c2 :: c3 :: rest4 =>
        if inR (lo4 b) (hi4 b) c1 then
          if isCont c2 then
            if isCont c3 then utf8Char4 b c1 c2 c3 :: utf8Replace rest4
            else replacementChar :: utf8Replace (c3 :: rest4)
          else replacementChar :: utf8Replace (c2 :: c3 :: rest4)
        else replacementChar :: utf8Replace (c1 :: c2 :: c3 :: rest4)
      | [c1, c2] =>
        if inR (lo4 b) (hi4 b) c1 then
          if isCont c2 then [replacementChar] else replacementChar :: utf8Replace [c2]
        else replacementChar :: utf8Replace [c1, c2]
      | [c1] =>
        if inR (lo4 b) (hi4 b) c1 then [replacementChar]
        else replacementChar :: utf8Replace [c1]
      | [] => [replacementChar]
    else replacementChar :: utf8Replace rest

/-- Latin-1 character data: every byte value is its own code point. -/
def latin1Chars (data : List Nat) : Line := data.map Char.ofNat

/-- Python bytes.decode latin-1 strict: defined on every byte (values 0..255)
with the identity code-point mapping. -/
def latin1Decode (data : List Nat) : Option Line :=
  if data.all (fun b => decide (b < 256)) then some (latin1Chars data) else none

/-- Windows code page 1252 single-byte mapping: the 0x80-0x9F block remaps to
punctuation and letters, five bytes are undefined (the codec raises on them),
everything else is the identity mapping. -/
def cp1252Point (b : Nat) : Option Nat :=
  if b == 0x80 then some 0x20AC
  else if b == 0x82 then some 0x201A
  else if b == 0x83 then some 0x0192
  else if b == 0x84 then some 0x201E
  else if b == 0x85 then some 0x2026
  else if b == 0x86 then some 0x2020
  else if b == 0x87 then some 0x2021
  else if b == 0x88 then some 0x02C6
  else if b == 0x89 then some 0x2030
  else if b == 0x8A then some 0x0160
  else if b == 0x8B then some 0x2039
  else if b == 0x8C then some 0x0152
  else if b == 0x8E then some 0x017D
  else if b == 0x91 then some 0x2018
  else if b == 0x92 then some 0x2019
  else if b == 0x93 then some 0x201C
  else if b == 0x94 then some 0x201D
  else if b == 0x95 then some 0x2022
  else if b == 0x96 then some 0x2013
  else if b == 0x97 then some 0x2014
  else if b == 0x98 then some 0x02DC
  else if b == 0x99 then some 0x2122
  else if b == 0x9A then some 0x0161
  else if b == 0x9B then some 0x203A
  else if b == 0x9C then some 0x0153
  else if b == 0x9E then some 0x017E
  else if b == 0x9F then some 0x0178
  else if b == 0x81 || b == 0x8D || b == 0x8F || b == 0x90 || b == 0x9D then none
  else if decide (b < 256) then some b
  else none

/-- Python bytes.decode cp1252 strict. -/
def cp1252Decode (data : List Nat) : Option Line :=
  (data.mapM cp1252Point).map (List.map Char.ofNat)

/-- The encoding list of the source loop, in order (line 257). -/
def encoders : List (List Nat → Option Line) := [utf8Decode, latin1Decode, cp1252Decode]

/-- The source's for-loop with break: first encoder that succeeds wins;
none corresponds to the Python local text still being None afterwards. -/
def firstSuccess (data : List Nat) : List (List Nat → Option Line) → Option Line
  | [] => none
  | e :: es =>
    match e data with
    | some t => some t
    | none => firstSuccess data es

/-- Byte chunk to text, as _process_data does it (lines 254-267): try the
encoders in order, fall back to utf-8 with replacement when all failed. -/
def decodeChunk (data : List Nat) : Line :=
  match firstSuccess data encoders with
  | some t => t
  | none => utf8Replace data

/-- Modelled from the spec: "Decoding policy, tried in order, first success
wins: UTF-8 strict, then Latin-1 strict, then code-page-1252 strict, then
UTF-8 with invalid-byte replacement (never fails)." -/
def decodeSpec (data : List Nat) : Line :=
  ((utf8Decode data).orElse fun _ =>
    (latin1Decode data).orElse fun _ => cp1252Decode data).getD (utf8Replace data)

/-! ### Data model: parameter maps, parser outcomes, handlers, events -/

/-- A typed parameter value (the spec's ParameterMap maps names to numeric or
string values; types.py itself is outside the core sources). -/
inductive PValue
  | num (n : Int)
  | str (s : String)
deriving Repr, DecidableEq

/-- The latest-value payload: one parsed reading, name to value. -/
abbrev PMap := List (String × PValue)

/-- Outcome of one HargassnerMessageParser.parse_message call on a line: a
returned mapping, or a raised exception.  A falsy return (None or an empty
dict) is the val constructor with an empty list, since _process_data only
tests truthiness. -/
inductive ParseOutcome
  | val (m : PMap)
  | exn
deriving Repr, DecidableEq

/-- A registered data callback, identified by id; raises says whether calling
it throws (the behaviour _process_data must isolate). -/
structure Handler where
  id : Nat
  raises : Bool
deriving Repr, DecidableEq

/-- Observable events of one _process_data call, in program order. -/
inductive Event
  | parserCalled (line : Line)
  | storeWrite (m : PMap)
  | cbInvoked (id : Nat) (m : PMap)
  | cbError (id : Nat)
deriving Repr, DecidableEq

/-- The statistics dict of the client (telnet_client.py lines 68-74). -/
structure Stats where
  messagesReceived : Nat
  messagesParsed : Nat
  parseErrors : Nat
  reconnections : Nat
  lastError : Option String
deriving Repr, DecidableEq

/-- The mutable fields of HargassnerTelnetClient that the receiver loop and
_process_data touch.  hasReader models whether _reader is non-None. -/
structure ClientState where
  connected : Bool
  hasReader : Bool
  consecutiveTimeouts : Nat
  reconnectDelay : Nat
  latestData : PMap
  lastUpdate : Option Int
  stats : Stats
deriving Repr, DecidableEq

/-- Configuration constants from const.py (not part of the core sources, so
kept abstract): staleness window, timeout threshold, base and maximum
reconnect delay. -/
structure Config where
  stalenessTimeout : Int
  maxConsecutiveTimeouts : Nat
  reconnectDelay : Nat
  maxReconnectDelay : Nat
deriving Repr, DecidableEq

/-- Outcome of the bounded read in one loop iteration: a chunk of bytes (an
empty chunk is the peer-closed EOF case), a timeout, or any other raised
error. -/
inductive ReadOutcome
  | bytes (data : List Nat)
  | timeout
  | raise
deriving Repr, DecidableEq

/-- The environment of one loop iteration: whether a connect attempt would
succeed, the current wall-clock time, and the read outcome. -/
structure Env where
  connectOk : Bool
  now : Int
  read : ReadOutcome
deriving Repr, DecidableEq

/-- Externally visible effects of one loop iteration. -/
structure Effects where
  connectAttempted : Bool
  readAttempted : Bool
  sleptFor : Option Nat
  closedConnection : Bool
  events : List Event
deriving Repr, DecidableEq

/-- No effects yet. -/
def emptyEff : Effects :=
  { connectAttempted := false, readAttempted := false, sleptFor := none,
    closedConnection := false, events := [] }

/-- The client state right after __init__ (telnet_client.py lines 44-77). -/
def initState (cfg : Config) : ClientState :=
  { connected := false, hasReader := false, consecutiveTimeouts := 0,
    reconnectDelay := cfg.reconnectDelay, latestData := [], lastUpdate := none,
    stats := { messagesReceived := 0, messagesParsed := 0, parseErrors := 0,
               reconnections := 0, lastError := none } }

/-! ### _process_data (telnet_client.py lines 246-305) -/

/-- The source's callback fan-out (lines 290-294): each registered callback is
called with the parsed map inside its own try, an exception being logged as a
cbError event and swallowed. -/
def dispatchEvents (cbs : List Handler) (m : PMap) : List Event :=
  cbs.flatMap fun h =>
    if h.raises then [Event.cbInvoked h.id m, Event.cbError h.id] else [Event.cbInvoked h.id m]

/-- The candidate-frame test of lines 273-275: after stripping, a line is
processed only if non-empty and starting with the literal marker pm. -/
def isCandidate (t : Line) : Bool :=
  !t.isEmpty && (match t with | 'p' :: 'm' :: _ => true | _ => false)

/-- The stripped line a raw split piece contributes as a candidate, if any. -/
def candidateOf (l : Line) : Option Line :=
  if isCandidate (pyStrip l) then some (pyStrip l) else none

/-- The per-line loop of _process_data (lines 272-301): skip non-candidates,
parse each candidate; a parser exception counts a parse error and continues;
a truthy parse result is stored (with the update timestamp), counted,
dispatched to the callbacks, and ends the loop (the break on line 297). -/
def processLines (parser : Line → ParseOutcome) (cbs : List Handler) (now : Int) :
    List Line → ClientState → ClientState × List Event
  | [], s => (s, [])
  | l :: rest, s =>
    let line := pyStrip l
    if isCandidate line then
      match parser line with
      | ParseOutcome.exn =>
        let r := processLines parser cbs now rest
          { s with stats := { s.stats with parseErrors := s.stats.parseErrors + 1 } }
        (r.1, Event.parserCalled line :: r.2)
      | ParseOutcome.val m =>
        if m.isEmpty then
          let r := processLines parser cbs now rest s
          (r.1, Event.parserCalled line :: r.2)
        else
          ({ s with latestData := m, lastUpdate := some now,
                    stats := { s.stats with messagesParsed := s.stats.messagesParsed + 1 } },
           Event.parserCalled line :: Event.storeWrite m :: dispatchEvents cbs m)
    else
      processLines parser cbs now rest s

/-- Whole of _process_data on one received chunk: count the message, decode
the bytes, strip and split the text, then run the per-line loop. -/
def processData (parser : Line → ParseOutcome) (cbs : List Handler) (now : Int)
    (data : List Nat) (s : ClientState) : ClientState × List Event :=
  let s1 := { s with stats := { s.stats with messagesReceived := s.stats.messagesReceived + 1 } }
  processLines parser cbs now (splitNL (pyStrip (decodeChunk data))) s1

/-- The candidate frames a chunk contributes, in line order. -/
def candidatesOf (data : List Nat) : List Line :=
  (splitNL (pyStrip (decodeChunk data))).filterMap candidateOf

/-- Whether the parser, applied to a candidate, returns a truthy map. -/
def succeedsB (parser : Line → ParseOutcome) (c : Line) : Bool :=
  match parser c with
  | ParseOutcome.val m => !m.isEmpty
  | ParseOutcome.exn => false

/-- Whether the parser raises on a candidate. -/
def isExn (parser : Line → ParseOutcome) (c : Line) : Bool :=
  match parser c with
  | ParseOutcome.val _ => false
  | ParseOutcome.exn => true

/-- Number of candidates in a list on which the parser raises. -/
def exnCount (parser : Line → ParseOutcome) (cs : List Line) : Nat :=
  (cs.filter (isExn parser)).length

/-- Lines handed to the parser, read off an event trace. -/
def calledLines (evs : List Event) : List Line :=
  evs.filterMap fun e => match e with | Event.parserCalled l => some l | _ => none

/-- Store writes, read off an event trace. -/
def storeWrites (evs : List Event) : List PMap :=
  evs.filterMap fun e => match e with | Event.storeWrite m => some m | _ => none

/-- Callback invocations (id and argument), read off an event trace. -/
def invocations (evs : List Event) : List (Nat × PMap) :=
  evs.filterMap fun e => match e with | Event.cbInvoked i m => some (i, m) | _ => none

/-! ### The receiver loop (telnet_client.py lines 116-190) -/

/-- The staleness test of lines 124-127: fires only when a _last_update
timestamp exists and is older than the staleness window. -/
def isStale (cfg : Config) (now : Int) (lu : Option Int) : Bool :=
  match lu with
  | some t => decide (now - t > cfg.stalenessTimeout)
  | none => false

/-- The generic except branch of lines 178-190: record the error, clear the
connected flag, reset the timeout counter, close the connection, sleep the
current backoff delay, then double it capped at the maximum. -/
def exceptPath (cfg : Config) (msg : String) (s : ClientState) (eff : Effects) :
    ClientState × Effects :=
  ({ s with stats := { s.stats with lastError := some msg },
            connected := false, consecutiveTimeouts := 0, hasReader := false,
            reconnectDelay := min (s.reconnectDelay * 2) cfg.maxReconnectDelay },
   { eff with closedConnection := true, sleptFor := some s.reconnectDelay })

/-- The part of an iteration after the connect block: staleness watchdog
(lines 124-135), then the guarded read (lines 138-176) with its EOF, data,
timeout and error branches. -/
def afterConnect (cfg : Config) (parser : Line → ParseOutcome) (cbs : List Handler)
    (env : Env) (s : ClientState) (eff : Effects) : ClientState × Effects :=
  if isStale cfg env.now s.lastUpdate then
    ({ s with stats := { s.stats with lastError := some "Data stale" },
              connected := false, hasReader := false },
     { eff with closedConnection := true })
  else if s.hasReader then
    match env.read with
    | ReadOutcome.bytes data =>
      if data.isEmpty then
        ({ s with connected := false, consecutiveTimeouts := 0 },
         { eff with readAttempted := true })
      else
        let r := processData parser cbs env.now data s
        ({ r.1 with reconnectDelay := cfg.reconnectDelay, consecutiveTimeouts := 0 },
         { eff with readAttempted := true, events := r.2 })
    | ReadOutcome.timeout =>
      if s.consecutiveTimeouts + 1 ≥ cfg.maxConsecutiveTimeouts then
        ({ s with stats := { s.stats with lastError := some "Dead connection" },
                  connected := false, consecutiveTimeouts := 0, hasReader := false },
         { eff with readAttempted := true, closedConnection := true })
      else
        ({ s with consecutiveTimeouts := s.consecutiveTimeouts + 1 },
         { eff with readAttempted := true })
    | ReadOutcome.raise =>
      exceptPath cfg "read error" s { eff with readAttempted := true }
  else
    (s, eff)

/-- One iteration of the while body of _receiver_loop: ensure a connection
(lines 121-122, with _connect of lines 192-230 setting the flag, resetting the
timeout counter and counting a reconnection on success, or raising into the
except branch on failure), then the watchdog and read phases. -/
def stepIter (cfg : Config) (parser : Line → ParseOutcome) (cbs : List Handler)
    (env : Env) (s : ClientState) : ClientState × Effects :=
  if s.connected then
    afterConnect cfg parser cbs env s emptyEff
  else
    if env.connectOk then
      afterConnect cfg parser cbs env
        { s with hasReader := true, connected := true, consecutiveTimeouts := 0,
                 stats := { s.stats with reconnections := s.stats.reconnections + 1 } }
        { emptyEff with connectAttempted := true }
    else
      exceptPath cfg "Connection failed" s { emptyEff with connectAttempted := true }

/-- Run the receiver loop for one environment per iteration, collecting the
per-iteration effects. -/
def runLoop (cfg : Config) (parser : Line → ParseOutcome) (cbs : List Handler) :
    List Env → ClientState → ClientState × List Effects
  | [], s => (s, [])
  | e :: es, s =>
    let r := stepIter cfg parser cbs e s
    let rr := runLoop cfg parser cbs es r.1
    (rr.1, r.2 :: rr.2)

/-- Number of connect attempts in a list of iteration effects. -/
def connectAttempts (effs : List Effects) : Nat :=
  (effs.filter (·.connectAttempted)).length

/-! ### Reference-heap model for get_latest_data (telnet_client.py 307-314)

get_latest_data returns `self._latest_data.copy()`: a new top-level dict
object whose entries reference the same value objects as the store.  Whether
that copy is observably independent of the store depends on sharing, so this
model tracks references explicitly: a heap maps addresses to Python objects,
a dict holds addresses of its values.  Modelled from the spec: a ParameterMap
value (ParameterData, declared in types.py which is outside the core sources)
is "a typed value (numeric or string)", i.e. an immutable scalar object. -/

/-- A Python object: an immutable number, an immutable string, or a mutable
dict whose values are references (heap addresses). -/
inductive PyObj
  | num (n : Int)
  | str (s : String)
  | dict (entries : List (String × Nat))
deriving Repr, DecidableEq

/-- A heap: object memory plus the next free address (allocation counter). -/
structure Heap where
  mem : Nat → Option PyObj
  next : Nat

/-- Overwrite one address. -/
def heapSet (h : Heap) (a : Nat) (o : PyObj) : Heap :=
  { h with mem := fun b => if b = a then some o else h.mem b }

/-- get_latest_data: dict.copy() of the store — allocate a fresh top-level
dict with the same entry list (keys and value references), returning the new
heap and the address handed to the caller. -/
def getLatestData (h : Heap) (store : Nat) : Heap × Nat :=
  match h.mem store with
  | some (PyObj.dict es) =>
    ({ mem := fun a => if a = h.next then some (PyObj.dict es) else h.mem a,
       next := h.next + 1 }, h.next)
  | _ => (h, store)

/-- A mutation a caller can perform through a dict reference it holds:
item assignment or item deletion.  Numbers and strings are immutable in
Python, so they admit no mutation. -/
inductive Mutation
  | setItem (target : Nat) (k : String) (v : Nat)
  | delItem (target : Nat) (k : String)
deriving Repr, DecidableEq

/-- The address a mutation acts on. -/
def Mutation.target : Mutation → Nat
  | Mutation.setItem a _ _ => a
  | Mutation.delItem a _ => a

/-- Python dict item assignment: update in place when the key exists
(preserving insertion order), append otherwise. -/
def assocSet (es : List (String × Nat)) (k : String) (v : Nat) : List (String × Nat) :=
  if es.any (fun kv => kv.1 == k) then es.map (fun kv => if kv.1 == k then (kv.1, v) else kv)
  else es ++ [(k, v)]

/-- Apply a mutation: only a dict object can be mutated; on anything else the
operation is impossible and leaves the heap unchanged. -/
def applyMut (h : Heap) (mu : Mutation) : Heap :=
  match mu with
  | Mutation.setItem a k v =>
    match h.mem a with
    | some (PyObj.dict es) => heapSet h a (PyObj.dict (assocSet es k v))
    | _ => h
  | Mutation.delItem a k =>
    match h.mem a with
    | some (PyObj.dict es) => heapSet h a (PyObj.dict (es.filter fun kv => kv.1 != k))
    | _ => h

/-- Immutable-scalar test. -/
def isScalar : PyObj → Bool
  | PyObj.num _ => true
  | PyObj.str _ => true
  | PyObj.dict _ => false

/-- The value references a dict at an address holds. -/
def dictValueAddrs (h : Heap) (a : Nat) : List Nat :=
  match h.mem a with
  | some (PyObj.dict es) => es.map Prod.snd
  | _ => []

/-- What a reader of the store observes: the key list with each value
dereferenced — exactly what a later get_latest_data call or the staleness
watchdog would see. -/
def observeDict (h : Heap) (a : Nat) : Option (List (String × Option PyObj)) :=
  match h.mem a with
  | some (PyObj.dict es) => some (es.map fun kv => (kv.1, h.mem kv.2))
  | _ => none

/-! ### The public boundary (telnet_client.py vs coordinator.py) -/

/-- Public (non-underscore) attributes defined on HargassnerTelnetClient
(telnet_client.py lines 79-352): methods, registration entry points and
read-only properties. -/
def telnetClientPublicAttrs : List String :=
  ["async_start", "async_stop", "get_latest_data", "register_callback",
   "unregister_callback", "connected", "last_update", "statistics",
   "expected_message_length"]

/-- Attributes of the telnet client that HargassnerDataUpdateCoordinator
accesses (coordinator.py lines 51-52, 63-65, 81-86, 101-107). -/
def coordinatorClientCalls : List String :=
  ["register_callback", "register_connection_callback", "connected",
   "last_update", "statistics", "get_latest_data"]

/-! ### Concrete fixtures used by witnesses and counterexamples -/

/-- A concrete configuration: staleness window 300 s, three consecutive
timeouts, base delay 5 s, maximum delay 300 s. -/
def cfgX : Config :=
  { stalenessTimeout := 300, maxConsecutiveTimeouts := 3,
    reconnectDelay := 5, maxReconnectDelay := 300 }

/-- The bytes of the unparseable line garbage followed by a newline. -/
def garbageBytes : List Nat := [103, 97, 114, 98, 97, 103, 101, 10]

/-- A parser that raises on every line. -/
def noParser : Line → ParseOutcome := fun _ => ParseOutcome.exn

/-- Six loop iterations whose reads keep returning the unparseable chunk while
the clock advances 1000 s per iteration, far beyond the staleness window. -/
def staleEnvs : List Env :=
  (List.range 6).map fun i =>
    { connectOk := true, now := 1000 * (Int.ofNat i + 1), read := ReadOutcome.bytes garbageBytes }

def pmALine : Line := ['p', 'm', ' ', 'A']

def pmBLine : Line := ['p', 'm', ' ', 'B']

def pmCLine : Line := ['p', 'm', ' ', 'C']

def mapA : PMap := [("temp", PValue.num 23)]

def mapB : PMap := [("temp", PValue.num 24)]

/-- A parser knowing the lines pm A and pm B, raising on everything else. -/
def pW : Line → ParseOutcome := fun l =>
  if l = pmALine then ParseOutcome.val mapA
  else if l = pmBLine then ParseOutcome.val mapB
  else ParseOutcome.exn

/-- The bytes of the two-line chunk pm A newline pm B. -/
def chunkAB : List Nat := [112, 109, 32, 65, 10, 112, 109, 32, 66]

/-- The bytes of the two-line chunk pm C newline pm A (first candidate
unparseable, second one parses). -/
def chunkCA : List Nat := [112, 109, 32, 67, 10, 112, 109, 32, 65]

/-- Two handlers, the first of which raises when invoked. -/
def cbsW : List Handler := [{ id := 0, raises := true }, { id := 1, raises := false }]

/-- A connected state whose last successful parse happened at time 0. -/
def stateW : ClientState :=
  { initState cfgX with connected := true, hasReader := true, lastUpdate := some 0 }

/-- A connected state that has never parsed anything. -/
def stateConn : ClientState :=
  { initState cfgX with connected := true, hasReader := true }

/-- An environment far past the staleness window of stateW. -/
def envStale : Env := { connectOk := true, now := 1000, read := ReadOutcome.bytes garbageBytes }

/-- An environment delivering a successful non-empty read at time 0. -/
def envData : Env := { connectOk := true, now := 0, read := ReadOutcome.bytes garbageBytes }

/-- An environment whose read times out. -/
def envTimeout : Env := { connectOk := true, now := 0, read := ReadOutcome.timeout }

/-- An environment whose connect attempt fails (the read is never reached). -/
def failEnv : Env := { connectOk := false, now := 0, read := ReadOutcome.timeout }

/-- A connected state two timeouts away from a clean slate: the next timeout
reaches the threshold of cfgX. -/
def stateTO : ClientState :=
  { initState cfgX with connected := true, hasReader := true, consecutiveTimeouts := 2 }

/-- A two-object heap: the store dict at address 0 holding one scalar
parameter value at address 1; the next free address is 2. -/
def heapW : Heap :=
  { mem := fun a =>
      if a = 0 then some (PyObj.dict [("temp", 1)])
      else if a = 1 then some (PyObj.num 23)
      else none,
    next := 2 }

/-- Mutations through the returned copy (allocated at address 2): add a key,
delete the existing key, and attempt to mutate the scalar value object. -/
def mutsW : List Mutation :=
  [Mutation.setItem 2 "extra" 1, Mutation.delItem 2 "temp", Mutation.setItem 1 "x" 0]

/-- Delay-bounds invariant of the spec: the reconnect delay always lies
within the closed interval from the base delay to the maximum delay. -/
def delayInv (cfg : Config) (s : ClientState) : Prop :=
  cfg.reconnectDelay ≤ s.reconnectDelay ∧ s.reconnectDelay ≤ cfg.maxReconnectDelay

/-! ## Theorems -/

/-- C5: for every byte sequence given to the frame decoder, decoding never
raises and always yields a text string — the source's encoding loop with its
utf-8-replace fallback (decodeChunk, a total function) agrees everywhere with
the spec's priority chain: utf-8 strict, latin-1 strict, cp1252 strict tried
in order with first success winning, utf-8 with character replacement as the
infallible last resort. -/
theorem decode_chain_matches_spec : ∀ data : List Nat, decodeChunk data = decodeSpec data := by
  intro data
  unfold decodeChunk decodeSpec encoders
  cases h1 : utf8Decode data <;> cases h2 : latin1Decode data <;>
    cases h3 : cp1252Decode data <;>
      simp [firstSuccess, h1, h2, h3, Option.orElse, Option.getD]

/-- C10: strict latin-1 decoding succeeds on every byte sequence, so the
cp1252 attempt and the utf-8-with-replacement last resort are unreachable:
the loop's first success always exists (the text-is-None branch is never
taken) and the decoded text comes from strict utf-8 or strict latin-1. -/
theorem latin1_total_later_decoders_unreachable (data : List Nat)
    (hb : ∀ b ∈ data, b < 256) :
    (latin1Decode data).isSome = true ∧
    (firstSuccess data encoders).isSome = true ∧
    decodeChunk data = (utf8Decode data).getD (latin1Chars data) := by
  have hall : data.all (fun b => decide (b < 256)) = true := by
    rw [List.all_eq_true]
    intro b hbm
    exact decide_eq_true (hb b hbm)
  have hl : latin1Decode data = some (latin1Chars data) := by
    unfold latin1Decode
    rw [if_pos hall]
  unfold decodeChunk encoders
  cases h1 : utf8Decode data <;>
    simp [firstSuccess, h1, hl, Option.getD]

/-- C10 witness: the single byte 0xFF is invalid utf-8 and decodes via
latin-1. -/
theorem latin1_total_witness :
    (latin1Decode [255]).isSome = true ∧
    (firstSuccess [255] encoders).isSome = true ∧
    decodeChunk [255] = (utf8Decode [255]).getD (latin1Chars [255]) :=
  latin1_total_later_decoders_unreachable [255] (by decide)

/-- C1 (code bug): the coordinator registers a connection-state handler
through register_connection_callback, but HargassnerTelnetClient exposes no
such attribute — the client has only the data-callback registry, so the call
raises AttributeError and no connected-flag transition is ever delivered to a
connection handler. -/
theorem connection_callback_registry_missing :
    "register_connection_callback" ∈ coordinatorClientCalls ∧
    "register_connection_callback" ∉ telnetClientPublicAttrs := by
  constructor
  · unfold coordinatorClientCalls
    simp
  · unfold telnetClientPublicAttrs
    simp

/-- C2 counterexample: a run that connects and then keeps reading unparseable
(non-pm) data for six iterations spanning 6000 s — twenty times the staleness
window of cfgX — with no successful parse ever: the loop never force-closes
and the connected flag stays true, because the staleness check requires an
existing lastUpdate timestamp. -/
theorem staleness_never_fires_without_parse_cex :
    (runLoop cfgX noParser [] staleEnvs (initState cfgX)).1.connected = true ∧
    (runLoop cfgX noParser [] staleEnvs (initState cfgX)).1.lastUpdate = none ∧
    ((runLoop cfgX noParser [] staleEnvs (initState cfgX)).2.all
      fun eff => !eff.closedConnection) = true := by
  decide

/-- C2 (amended): in every loop iteration in which the client is connected, a
lastUpdate timestamp exists (at least one parse has succeeded since start)
and more than stalenessTimeout has elapsed since it, the loop force-closes
the connection and the connected flag becomes false, without sleeping and
before any read is attempted; when no successful parse has ever occurred the
staleness watchdog never fires. -/
theorem staleness_disconnect_requires_lastUpdate
    (cfg : Config) (parser : Line → ParseOutcome) (cbs : List Handler)
    (env : Env) (s : ClientState) (t : Int)
    (hconn : s.connected = true) (hlu : s.lastUpdate = some t)
    (hstale : env.now - t > cfg.stalenessTimeout) :
    (stepIter cfg parser cbs env s).1.connected = false ∧
    (stepIter cfg parser cbs env s).2.closedConnection = true ∧
    (stepIter cfg parser cbs env s).2.readAttempted = false ∧
    (stepIter cfg parser cbs env s).2.sleptFor = none := by
  have hs : isStale cfg env.now s.lastUpdate = true := by
    rw [hlu]
    unfold isStale
    exact decide_eq_true hstale
  simp [stepIter, hconn, afterConnect, hs, emptyEff]

/-- C2 witness: a connected state with lastUpdate 0 observed at time 1000
under the 300 s staleness window of cfgX. -/
theorem staleness_disconnect_requires_lastUpdate_witness :
    (stepIter cfgX noParser [] envStale stateW).1.connected = false ∧
    (stepIter cfgX noParser [] envStale stateW).2.closedConnection = true ∧
    (stepIter cfgX noParser [] envStale stateW).2.readAttempted = false ∧
    (stepIter cfgX noParser [] envStale stateW).2.sleptFor = none :=
  staleness_disconnect_requires_lastUpdate cfgX noParser [] envStale stateW 0
    rfl rfl (by decide)

/-- Helper: any iteration entered with a stale lastUpdate performs no read,
closes the connection, leaves the client disconnected and preserves both the
store and the timestamp (whether the iteration starts connected, reconnects
first, or fails to connect). -/
theorem stale_step_facts (cfg : Config) (parser : Line → ParseOutcome) (cbs : List Handler)
    (env : Env) (s : ClientState) (t : Int)
    (hlu : s.lastUpdate = some t) (hstale : env.now - t > cfg.stalenessTimeout) :
    (stepIter cfg parser cbs env s).1.lastUpdate = some t ∧
    (stepIter cfg parser cbs env s).1.latestData = s.latestData ∧
    (stepIter cfg parser cbs env s).2.readAttempted = false ∧
    (stepIter cfg parser cbs env s).2.closedConnection = true ∧
    (stepIter cfg parser cbs env s).1.connected = false := by
  have hs : isStale cfg env.now (some t) = true := by
    unfold isStale
    exact decide_eq_true hstale
  unfold stepIter
  cases hc : s.connected <;> cases hco : env.connectOk <;>
    simp [afterConnect, exceptPath, emptyEff, hs, hlu, hc, hco]

/-- C9: once the lastUpdate timestamp is stale it stays stale — it is only
written on a successful parse, the staleness check runs before any read, so
every later iteration (reconnecting or not) closes the connection before a
read is attempted, and neither the store nor the timestamp can ever change
again during the run. -/
theorem staleness_latches_no_further_reads
    (cfg : Config) (parser : Line → ParseOutcome) (cbs : List Handler) (t : Int) :
    ∀ (envs : List Env) (s : ClientState), s.lastUpdate = some t →
      (∀ e ∈ envs, e.now - t > cfg.stalenessTimeout) →
      (runLoop cfg parser cbs envs s).1.lastUpdate = some t ∧
      (runLoop cfg parser cbs envs s).1.latestData = s.latestData ∧
      ∀ eff ∈ (runLoop cfg parser cbs envs s).2,
        eff.readAttempted = false ∧ eff.closedConnection = true := by
  intro envs
  induction envs with
  | nil =>
    intro s hlu _
    simp [runLoop, hlu]
  | cons e es ih =>
    intro s hlu henv
    have h1 := stale_step_facts cfg parser cbs e s t hlu (henv e (List.mem_cons_self e es))
    have h2 := ih (stepIter cfg parser cbs e s).1 h1.1
      (fun e2 he2 => henv e2 (List.mem_cons_of_mem e he2))
    simp only [runLoop]
    refine ⟨h2.1, ?_, ?_⟩
    · rw [h2.2.1, h1.2.1]
    · intro eff heff
      rcases List.mem_cons.mp heff with h | h
      · subst h
        exact ⟨h1.2.2.1, h1.2.2.2.1⟩
      · exact h2.2.2 eff h

/-- C9 witness: two stale iterations after a parse at time 0. -/
theorem staleness_latches_witness :
    (runLoop cfgX noParser [] [envStale, envStale] stateW).1.lastUpdate = some 0 ∧
    (runLoop cfgX noParser [] [envStale, envStale] stateW).1.latestData = stateW.latestData ∧
    ((runLoop cfgX noParser [] [envStale, envStale] stateW).2.all
      fun eff => !eff.readAttempted && eff.closedConnection) = true := by
  have h := staleness_latches_no_further_reads cfgX noParser [] 0 [envStale, envStale] stateW
    rfl (by decide)
  refine ⟨h.1, h.2.1, ?_⟩
  rw [List.all_eq_true]
  intro eff heff
  rw [(h.2.2 eff heff).1, (h.2.2 eff heff).2]
  rfl

/-- Helper: a connect-failure iteration leaves the client disconnected,
sleeps the current delay and doubles it capped at the maximum. -/
theorem fail_step_facts (cfg : Config) (parser : Line → ParseOutcome) (cbs : List Handler)
    (s : ClientState) (h : s.connected = false) :
    (stepIter cfg parser cbs failEnv s).1.connected = false ∧
    (stepIter cfg parser cbs failEnv s).1.reconnectDelay =
      min (s.reconnectDelay * 2) cfg.maxReconnectDelay ∧
    (stepIter cfg parser cbs failEnv s).2.sleptFor = some s.reconnectDelay := by
  simp [stepIter, h, failEnv, exceptPath, emptyEff]

/-- Helper: capping before multiplying by a positive factor and capping again
is the same as capping once. -/
theorem min_mul_pow (a M p : Nat) (hp : 0 < p) :
    min (min a M * p) M = min (a * p) M := by
  rcases Nat.le_total a M with h | h
  · rw [Nat.min_eq_left h]
  · rw [Nat.min_eq_right h, Nat.min_eq_right (Nat.le_mul_of_pos_right M hp),
        Nat.min_eq_right (Nat.le_trans h (Nat.le_mul_of_pos_right a hp))]

/-- Helper: N consecutive connect-failure iterations from a disconnected
state multiply the delay by two to the N, capped at the maximum. -/
theorem fail_run_delay (cfg : Config) (parser : Line → ParseOutcome) (cbs : List Handler) :
    ∀ (N : Nat) (s : ClientState), s.connected = false →
      s.reconnectDelay ≤ cfg.maxReconnectDelay →
      (runLoop cfg parser cbs (List.replicate N failEnv) s).1.reconnectDelay =
        min (s.reconnectDelay * 2 ^ N) cfg.maxReconnectDelay := by
  intro N
  induction N with
  | zero =>
    intro s _ h2
    simp only [List.replicate, runLoop, pow_zero, Nat.mul_one]
    omega
  | succ n ih =>
    intro s h1 h2
    rw [List.replicate_succ]
    simp only [runLoop]
    have hf := fail_step_facts cfg parser cbs s h1
    rw [ih (stepIter cfg parser cbs failEnv s).1 hf.1 (by rw [hf.2.1]; omega), hf.2.1,
        min_mul_pow (s.reconnectDelay * 2) cfg.maxReconnectDelay (2 ^ n) (by positivity)]
    congr 1
    rw [pow_succ]
    ring

/-- Helper: one loop iteration either leaves the reconnect delay unchanged,
doubles it capped at the maximum (the exception path), or resets it to the
base (the successful-read path). -/
theorem afterConnect_delay_cases (cfg : Config) (parser : Line → ParseOutcome)
    (cbs : List Handler) (env : Env) (s : ClientState) (eff : Effects) :
    (afterConnect cfg parser cbs env s eff).1.reconnectDelay = s.reconnectDelay ∨
    (afterConnect cfg parser cbs env s eff).1.reconnectDelay =
      min (s.reconnectDelay * 2) cfg.maxReconnectDelay ∨
    (afterConnect cfg parser cbs env s eff).1.reconnectDelay = cfg.reconnectDelay := by
  unfold afterConnect exceptPath
  by_cases h1 : isStale cfg env.now s.lastUpdate
  · simp [h1]
  · by_cases h2 : s.hasReader
    · cases hr : env.read with
      | bytes data =>
        by_cases h3 : data.isEmpty <;> simp [h1, h2, h3]
      | timeout =>
        by_cases h4 : s.consecutiveTimeouts + 1 ≥ cfg.maxConsecutiveTimeouts <;>
          simp [h1, h2, h4]
      | raise => simp [h1, h2]
    · simp [h1, h2]

/-- Helper: the delay after any full iteration is unchanged, doubled capped,
or reset to base. -/
theorem step_delay_cases (cfg : Config) (parser : Line → ParseOutcome)
    (cbs : List Handler) (env : Env) (s : ClientState) :
    (stepIter cfg parser cbs env s).1.reconnectDelay = s.reconnectDelay ∨
    (stepIter cfg parser cbs env s).1.reconnectDelay =
      min (s.reconnectDelay * 2) cfg.maxReconnectDelay ∨
    (stepIter cfg parser cbs env s).1.reconnectDelay = cfg.reconnectDelay := by
  unfold stepIter
  by_cases hc : s.connected
  · simp only [hc, if_true]
    exact afterConnect_delay_cases cfg parser cbs env s emptyEff
  · simp only [hc, if_false]
    by_cases hk : env.connectOk
    · simp only [hk, if_true]
      have h := afterConnect_delay_cases cfg parser cbs env
        { s with hasReader := true, connected := true, consecutiveTimeouts := 0,
                 stats := { s.stats with reconnections := s.stats.reconnections + 1 } }
        { emptyEff with connectAttempted := true }
      simpa using h
    · simp [hk, exceptPath]

/-- C6: the reconnect delay always lies within the closed interval from base
to max (delayInv is preserved by every iteration given base at most max);
after N consecutive connect-failure cycles with no intervening successful
read, starting from the base delay, it equals min of base times two to the N
and max; and any single successful non-empty read resets it to base. -/
theorem backoff_bounds_formula_reset
    (cfg : Config) (parser : Line → ParseOutcome) (cbs : List Handler)
    (hbm : cfg.reconnectDelay ≤ cfg.maxReconnectDelay) :
    (∀ env s, delayInv cfg s → delayInv cfg (stepIter cfg parser cbs env s).1) ∧
    (∀ (N : Nat) (s : ClientState), s.connected = false →
       s.reconnectDelay = cfg.reconnectDelay →
       (runLoop cfg parser cbs (List.replicate N failEnv) s).1.reconnectDelay =
         min (cfg.reconnectDelay * 2 ^ N) cfg.maxReconnectDelay) ∧
    (∀ env s d, s.connected = true → s.hasReader = true →
       isStale cfg env.now s.lastUpdate = false → env.read = ReadOutcome.bytes d →
       d.isEmpty = false →
       (stepIter cfg parser cbs env s).1.reconnectDelay = cfg.reconnectDelay) := by
  refine ⟨?_, ?_, ?_⟩
  · intro env s hinv
    obtain ⟨h1, h2⟩ := hinv
    rcases step_delay_cases cfg parser cbs env s with h | h | h <;>
      exact ⟨by omega, by omega⟩
  · intro N s h1 h2
    have hN := fail_run_delay cfg parser cbs N s h1 (by omega)
    rw [h2] at hN
    exact hN
  · intro env s d hc hr hst hrd hne
    simp [stepIter, hc, afterConnect, hst, hr, hrd, hne]

/-- C6 witness: evaluation at cfgX — invariant after one failing step from
the initial state, the closed-form delay after seven connect failures, and
the reset after one successful read. -/
theorem backoff_witness :
    delayInv cfgX (stepIter cfgX noParser [] failEnv (initState cfgX)).1 ∧
    (runLoop cfgX noParser [] (List.replicate 7 failEnv) (initState cfgX)).1.reconnectDelay =
      min (cfgX.reconnectDelay * 2 ^ 7) cfgX.maxReconnectDelay ∧
    (stepIter cfgX noParser [] envData stateConn).1.reconnectDelay = cfgX.reconnectDelay := by
  have h := backoff_bounds_formula_reset cfgX noParser [] (by decide)
  exact ⟨h.1 failEnv (initState cfgX) ⟨by decide, by decide⟩,
         h.2.1 7 (initState cfgX) rfl rfl,
         h.2.2 envData stateConn garbageBytes rfl rfl (by decide) rfl (by decide)⟩

/-- Helper: the per-line parse loop never touches the connected flag. -/
theorem processLines_connected (parser : Line → ParseOutcome) (cbs : List Handler) (now : Int) :
    ∀ (ls : List Line) (s : ClientState),
      (processLines parser cbs now ls s).1.connected = s.connected := by
  intro ls
  induction ls with
  | nil => intro s; rfl
  | cons l rest ih =>
    intro s
    simp only [processLines]
    by_cases hc : isCandidate (pyStrip l)
    · simp only [hc, if_true]
      cases hp : parser (pyStrip l) with
      | exn => simp [ih]
      | val m =>
        by_cases hm : m.isEmpty
        · simp [hm, ih]
        · simp [hm]
    · simp [hc, ih]

/-- Helper: from a disconnected state, an iteration with a successful connect
attempt, no staleness and a successful non-empty read leaves the client
connected, having attempted exactly one connect. -/
theorem reconnect_step_connected (cfg : Config) (parser : Line → ParseOutcome)
    (cbs : List Handler) (env2 : Env) (s1 : ClientState)
    (hdis : s1.connected = false) (hk : env2.connectOk = true)
    (hns : isStale cfg env2.now s1.lastUpdate = false)
    (d : List Nat) (hrd : env2.read = ReadOutcome.bytes d) (hne : d.isEmpty = false) :
    (stepIter cfg parser cbs env2 s1).1.connected = true ∧
    (stepIter cfg parser cbs env2 s1).2.connectAttempted = true := by
  simp [stepIter, hdis, hk, afterConnect, hns, hrd, hne, processData,
    processLines_connected, emptyEff]

/-- C7: each read timeout increments the consecutive-timeout counter; when
the incremented counter reaches the threshold the iteration records the
error, force-closes, marks disconnected and resets the counter to zero
without sleeping; below the threshold nothing is closed; and reaching the
threshold once triggers exactly one reconnection attempt over the following
iteration, after which the client is connected again. -/
theorem timeout_threshold_single_reconnect
    (cfg : Config) (parser : Line → ParseOutcome) (cbs : List Handler)
    (env : Env) (s : ClientState)
    (hconn : s.connected = true) (hrd : s.hasReader = true)
    (hns : isStale cfg env.now s.lastUpdate = false)
    (hto : env.read = ReadOutcome.timeout) :
    ((stepIter cfg parser cbs env s).1.consecutiveTimeouts =
       if s.consecutiveTimeouts + 1 ≥ cfg.maxConsecutiveTimeouts then 0
       else s.consecutiveTimeouts + 1) ∧
    (s.consecutiveTimeouts + 1 ≥ cfg.maxConsecutiveTimeouts →
       (stepIter cfg parser cbs env s).1.connected = false ∧
       (stepIter cfg parser cbs env s).1.stats.lastError = some "Dead connection" ∧
       (stepIter cfg parser cbs env s).2.closedConnection = true ∧
       (stepIter cfg parser cbs env s).2.sleptFor = none) ∧
    (s.consecutiveTimeouts + 1 < cfg.maxConsecutiveTimeouts →
       (stepIter cfg parser cbs env s).1.connected = true ∧
       (stepIter cfg parser cbs env s).2.closedConnection = false) ∧
    (∀ env2 d, s.consecutiveTimeouts + 1 ≥ cfg.maxConsecutiveTimeouts →
       env2.connectOk = true → isStale cfg env2.now s.lastUpdate = false →
       env2.read = ReadOutcome.bytes d → d.isEmpty = false →
       connectAttempts (runLoop cfg parser cbs [env, env2] s).2 = 1 ∧
       (runLoop cfg parser cbs [env, env2] s).1.connected = true) := by
  refine ⟨?_, ?_, ?_, ?_⟩
  · by_cases h : s.consecutiveTimeouts + 1 ≥ cfg.maxConsecutiveTimeouts <;>
      simp [stepIter, hconn, afterConnect, hns, hrd, hto, h]
  · intro h
    simp [stepIter, hconn, afterConnect, hns, hrd, hto, h, emptyEff]
  · intro h
    have h2 : ¬ s.consecutiveTimeouts + 1 ≥ cfg.maxConsecutiveTimeouts := by omega
    simp [stepIter, hconn, afterConnect, hns, hrd, hto, h2, emptyEff]
  · intro env2 d h hk2 hns2 hrd2 hne2
    have f1 : (stepIter cfg parser cbs env s).1.connected = false := by
      simp [stepIter, hconn, afterConnect, hns, hrd, hto, h]
    have f2 : (stepIter cfg parser cbs env s).1.lastUpdate = s.lastUpdate := by
      simp [stepIter, hconn, afterConnect, hns, hrd, hto, h]
    have f3 : (stepIter cfg parser cbs env s).2.connectAttempted = false := by
      simp [stepIter, hconn, afterConnect, hns, hrd, hto, h, emptyEff]
    have hrec := reconnect_step_connected cfg parser cbs env2
      (stepIter cfg parser cbs env s).1 f1 hk2 (by rw [f2]; exact hns2) d hrd2 hne2
    constructor
    · simp only [runLoop, connectAttempts]
      simp [f3, hrec.2]
    · simp only [runLoop]
      exact hrec.1

/-- C7 witness: at cfgX (threshold 3) a connected state with two accumulated
timeouts: the next timeout closes the connection without sleeping and resets
the counter, and the following iteration reconnects with exactly one connect
attempt over the two iterations. -/
theorem timeout_threshold_witness :
    (stepIter cfgX noParser [] envTimeout stateTO).1.consecutiveTimeouts = 0 ∧
    (stepIter cfgX noParser [] envTimeout stateTO).1.connected = false ∧
    (stepIter cfgX noParser [] envTimeout stateTO).2.closedConnection = true ∧
    (stepIter cfgX noParser [] envTimeout stateTO).2.sleptFor = none ∧
    connectAttempts (runLoop cfgX noParser [] [envTimeout, envData] stateTO).2 = 1 ∧
    (runLoop cfgX noParser [] [envTimeout, envData] stateTO).1.connected = true := by
  have h := timeout_threshold_single_reconnect cfgX noParser [] envTimeout stateTO
    rfl rfl (by decide) rfl
  have h2 := h.2.1 (by decide)
  have h4 := h.2.2.2 envData garbageBytes (by decide) rfl (by decide) rfl (by decide)
  refine ⟨?_, h2.1, h2.2.2.1, h2.2.2.2, h4.1, h4.2⟩
  rw [h.1]
  decide

/-- Helper: one step of the dispatch fan-out. -/
theorem dispatchEvents_cons (h : Handler) (hs : List Handler) (m : PMap) :
    dispatchEvents (h :: hs) m =
      (if h.raises then [Event.cbInvoked h.id m, Event.cbError h.id]
       else [Event.cbInvoked h.id m]) ++ dispatchEvents hs m := by
  simp [dispatchEvents]

/-- Helper: the dispatcher invokes every registered handler exactly once, in
registration order, with the dispatched map, whether or not a handler
raises. -/
theorem invocations_dispatch (cbs : List Handler) (m : PMap) :
    invocations (dispatchEvents cbs m) = cbs.map fun h => (h.id, m) := by
  induction cbs with
  | nil => rfl
  | cons h hs ih =>
    rw [dispatchEvents_cons]
    by_cases hr : h.raises <;>
      simp only [hr, if_true, if_false] <;>
      simp only [invocations, List.filterMap_append] at ih ⊢ <;>
      simp [ih]

/-- Helper: dispatch events contain no parser calls. -/
theorem calledLines_dispatch (cbs : List Handler) (m : PMap) :
    calledLines (dispatchEvents cbs m) = [] := by
  induction cbs with
  | nil => rfl
  | cons h hs ih =>
    rw [dispatchEvents_cons]
    by_cases hr : h.raises <;>
      simp only [hr, if_true, if_false] <;>
      simp only [calledLines, List.filterMap_append] at ih ⊢ <;>
      simp [ih]

/-- Helper: dispatch events contain no store writes. -/
theorem storeWrites_dispatch (cbs : List Handler) (m : PMap) :
    storeWrites (dispatchEvents cbs m) = [] := by
  induction cbs with
  | nil => rfl
  | cons h hs ih =>
    rw [dispatchEvents_cons]
    by_cases hr : h.raises <;>
      simp only [hr, if_true, if_false] <;>
      simp only [storeWrites, List.filterMap_append] at ih ⊢ <;>
      simp [ih]

/-- Helper: the parser-call events of a pure prefix of parser calls. -/
theorem calledLines_map (ls : List Line) :
    calledLines (ls.map Event.parserCalled) = ls := by
  induction ls with
  | nil => rfl
  | cons l rest ih => simp only [List.map_cons, calledLines] at ih ⊢; simp [ih]

/-- Helper: a pure prefix of parser calls contains no store writes. -/
theorem storeWrites_map (ls : List Line) :
    storeWrites (ls.map Event.parserCalled) = [] := by
  induction ls with
  | nil => rfl
  | cons l rest ih => simp only [List.map_cons, storeWrites] at ih ⊢; simp [ih]

/-- Helper: a pure prefix of parser calls contains no invocations. -/
theorem invocations_map (ls : List Line) :
    invocations (ls.map Event.parserCalled) = [] := by
  induction ls with
  | nil => rfl
  | cons l rest ih => simp only [List.map_cons, invocations] at ih ⊢; simp [ih]

/-- Helper: on a line list whose candidates split into a failing prefix, a
first truthy-parsing candidate w and a remainder, the per-line loop calls the
parser on the prefix and w only, stores w's map with the timestamp, counts
one parsed message and the raising prefix candidates, and emits the store
write immediately followed by the dispatch — nothing after w is touched. -/
theorem processLines_spec (parser : Line → ParseOutcome) (cbs : List Handler) (now : Int)
    (w : Line) (m : PMap) (hw : parser w = ParseOutcome.val m) (hm : m.isEmpty = false) :
    ∀ (ls : List Line) (s : ClientState) (pre post : List Line),
      ls.filterMap candidateOf = pre ++ w :: post →
      (∀ c ∈ pre, succeedsB parser c = false) →
      (processLines parser cbs now ls s).1.latestData = m ∧
      (processLines parser cbs now ls s).1.lastUpdate = some now ∧
      (processLines parser cbs now ls s).1.stats.messagesParsed =
        s.stats.messagesParsed + 1 ∧
      (processLines parser cbs now ls s).1.stats.parseErrors =
        s.stats.parseErrors + exnCount parser pre ∧
      (processLines parser cbs now ls s).2 =
        pre.map Event.parserCalled ++
          Event.parserCalled w :: Event.storeWrite m :: dispatchEvents cbs m := by
  intro ls
  induction ls with
  | nil =>
    intro s pre post h _
    exact absurd h (by simp)
  | cons l rest ih =>
    intro s pre post h hpre
    by_cases hc : isCandidate (pyStrip l)
    · have hcand : candidateOf l = some (pyStrip l) := by simp [candidateOf, hc]
      rw [List.filterMap_cons, hcand] at h
      cases pre with
      | nil =>
        simp only [List.nil_append] at h
        obtain ⟨hw1, hrest⟩ := List.cons_eq_cons.mp h
        rw [hw1] at hc
        simp only [processLines, hw1, hc, if_true, hw, hm, Bool.false_eq_true, if_false]
        simp [exnCount]
      | cons p pre2 =>
        simp only [List.cons_append] at h
        obtain ⟨hl, hrest⟩ := List.cons_eq_cons.mp h
        have hsp : succeedsB parser p = false := hpre p (List.mem_cons_self p pre2)
        subst hl
        have hpre2 : ∀ c ∈ pre2, succeedsB parser c = false :=
          fun c hc2 => hpre c (List.mem_cons_of_mem _ hc2)
        cases hp : parser (pyStrip l) with
        | exn =>
          have hex : isExn parser (pyStrip l) = true := by simp [isExn, hp]
          have := ih { s with stats :=
              { s.stats with parseErrors := s.stats.parseErrors + 1 } } pre2 post hrest hpre2
          simp only [processLines, hc, if_true, hp]
          refine ⟨this.1, this.2.1, by simpa using this.2.2.1, ?_, ?_⟩
          · rw [this.2.2.2.1]
            simp [exnCount, List.filter_cons, hex]
            omega
          · rw [this.2.2.2.2]
            simp
        | val m2 =>
          have hm2 : m2.isEmpty = true := by
            unfold succeedsB at hsp
            rw [hp] at hsp
            simpa using hsp
          have hex : isExn parser (pyStrip l) = false := by simp [isExn, hp]
          have := ih s pre2 post hrest hpre2
          simp only [processLines, hc, if_true, hp, hm2]
          refine ⟨this.1, this.2.1, this.2.2.1, ?_, ?_⟩
          · rw [this.2.2.2.1]
            simp [exnCount, List.filter_cons, hex]
          · rw [this.2.2.2.2]
            simp
    · have hcand : candidateOf l = none := by simp [candidateOf, hc]
      rw [List.filterMap_cons, hcand] at h
      simp only [processLines, hc, Bool.false_eq_true, if_false]
      exact ih s pre post h hpre

/-- Helper: the resulting client state of _process_data does not depend on
the registered handlers — in particular a raising handler cannot fault the
receive loop's bookkeeping. -/
theorem processLines_cbs_independent (parser : Line → ParseOutcome) (now : Int) :
    ∀ (ls : List Line) (s : ClientState) (cbs1 cbs2 : List Handler),
      (processLines parser cbs1 now ls s).1 = (processLines parser cbs2 now ls s).1 := by
  intro ls
  induction ls with
  | nil => intro s c1 c2; rfl
  | cons l rest ih =>
    intro s c1 c2
    simp only [processLines]
    by_cases hc : isCandidate (pyStrip l)
    · simp only [hc, if_true]
      cases hp : parser (pyStrip l) with
      | exn => exact ih _ c1 c2
      | val m =>
        by_cases hm : m.isEmpty
        · simp only [hm, if_true]
          exact ih _ c1 c2
        · simp only [hm, Bool.false_eq_true, if_false]
    · simp only [hc, Bool.false_eq_true, if_false]
      exact ih _ c1 c2

/-- C4: for every received chunk whose decoded text contains two or more
candidate frames, exactly one frame reaches the store and the callbacks —
the first candidate in line order whose parse returns a truthy map — the
parser runs only on that candidate and the failing ones before it, and every
candidate after it is discarded without being parsed, stored or
dispatched. -/
theorem first_successful_frame_only_processed
    (parser : Line → ParseOutcome) (cbs : List Handler) (now : Int)
    (data : List Nat) (s : ClientState) (pre post : List Line) (w : Line)
    (hsplit : candidatesOf data = pre ++ w :: post)
    (_hlen : 2 ≤ (candidatesOf data).length)
    (hpre : ∀ c ∈ pre, succeedsB parser c = false)
    (hw : succeedsB parser w = true) :
    ∃ m, parser w = ParseOutcome.val m ∧ m.isEmpty = false ∧
      (processData parser cbs now data s).1.latestData = m ∧
      calledLines (processData parser cbs now data s).2 = pre ++ [w] ∧
      storeWrites (processData parser cbs now data s).2 = [m] ∧
      invocations (processData parser cbs now data s).2 = cbs.map fun h => (h.id, m) := by
  obtain ⟨m, hpm, hm⟩ : ∃ m, parser w = ParseOutcome.val m ∧ m.isEmpty = false := by
    unfold succeedsB at hw
    cases hp : parser w with
    | val m =>
      rw [hp] at hw
      exact ⟨m, rfl, by simpa using hw⟩
    | exn =>
      rw [hp] at hw
      cases hw
  simp only [candidatesOf] at hsplit
  have h := processLines_spec parser cbs now w m hpm hm
    (splitNL (pyStrip (decodeChunk data)))
    { s with stats := { s.stats with messagesReceived := s.stats.messagesReceived + 1 } }
    pre post hsplit hpre
  have hev : (processData parser cbs now data s).2 =
      pre.map Event.parserCalled ++
        Event.parserCalled w :: Event.storeWrite m :: dispatchEvents cbs m := by
    simpa only [processData] using h.2.2.2.2
  refine ⟨m, hpm, hm, by simpa only [processData] using h.1, ?_, ?_, ?_⟩
  · rw [hev]
    have h1 := calledLines_map pre
    have h2 := calledLines_dispatch cbs m
    simp only [calledLines] at h1 h2 ⊢
    simp [List.filterMap_append, h1, h2]
  · rw [hev]
    have h1 := storeWrites_map pre
    have h2 := storeWrites_dispatch cbs m
    simp only [storeWrites] at h1 h2 ⊢
    simp [List.filterMap_append, h1, h2]
  · rw [hev]
    have h1 := invocations_map pre
    have h2 := invocations_dispatch cbs m
    simp only [invocations] at h1 h2 ⊢
    simp [List.filterMap_append, h1, h2]

/-- C8: when a parsed map is stored, every registered data handler is invoked
exactly once with that map, synchronously and in registration order,
immediately after the store write (the event trace is the parser calls, then
the store write, then the dispatch); a raising handler is caught, the
handlers after it are still invoked, and the client state is independent of
the handlers, so a handler exception cannot fault the receive loop. -/
theorem callback_dispatch_order_isolation
    (parser : Line → ParseOutcome) (cbs : List Handler) (now : Int)
    (data : List Nat) (s : ClientState) (pre post : List Line) (w : Line)
    (hsplit : candidatesOf data = pre ++ w :: post)
    (hpre : ∀ c ∈ pre, succeedsB parser c = false)
    (hw : succeedsB parser w = true) :
    ∃ m, parser w = ParseOutcome.val m ∧
      (processData parser cbs now data s).1.latestData = m ∧
      (processData parser cbs now data s).2 =
        pre.map Event.parserCalled ++
          Event.parserCalled w :: Event.storeWrite m :: dispatchEvents cbs m ∧
      invocations (dispatchEvents cbs m) = cbs.map (fun h => (h.id, m)) ∧
      (∀ cbs2 : List Handler,
        (processData parser cbs2 now data s).1 = (processData parser cbs now data s).1) := by
  obtain ⟨m, hpm, hm⟩ : ∃ m, parser w = ParseOutcome.val m ∧ m.isEmpty = false := by
    unfold succeedsB at hw
    cases hp : parser w with
    | val m =>
      rw [hp] at hw
      exact ⟨m, rfl, by simpa using hw⟩
    | exn =>
      rw [hp] at hw
      cases hw
  simp only [candidatesOf] at hsplit
  have h := processLines_spec parser cbs now w m hpm hm
    (splitNL (pyStrip (decodeChunk data)))
    { s with stats := { s.stats with messagesReceived := s.stats.messagesReceived + 1 } }
    pre post hsplit hpre
  refine ⟨m, hpm, by simpa only [processData] using h.1,
    by simpa only [processData] using h.2.2.2.2, invocations_dispatch cbs m, ?_⟩
  intro cbs2
  simp only [processData]
  exact processLines_cbs_independent parser now _ _ cbs2 cbs

/-- C4 witness: the chunk pm A newline pm B with a parser that parses both —
only pm A is parsed, stored and dispatched. -/
theorem first_successful_frame_witness :
    (processData pW cbsW 5 chunkAB (initState cfgX)).1.latestData = mapA ∧
    calledLines (processData pW cbsW 5 chunkAB (initState cfgX)).2 = [pmALine] ∧
    storeWrites (processData pW cbsW 5 chunkAB (initState cfgX)).2 = [mapA] ∧
    invocations (processData pW cbsW 5 chunkAB (initState cfgX)).2 =
      cbsW.map fun h => (h.id, mapA) := by
  obtain ⟨m, hm1, hm2, hm3, hm4, hm5, hm6⟩ := first_successful_frame_only_processed pW cbsW 5
    chunkAB (initState cfgX) [] [pmBLine] pmALine (by decide) (by decide) (by decide) (by decide)
  have h0 : pW pmALine = ParseOutcome.val mapA := by decide
  rw [hm1] at h0
  injection h0 with h0
  subst h0
  exact ⟨hm3, by simpa using hm4, hm5, hm6⟩

/-- C8 witness: the chunk pm C newline pm A, where pm C raises in the parser
and the first registered handler raises — both handlers are still invoked in
order with the stored map. -/
theorem callback_dispatch_witness :
    (processData pW cbsW 7 chunkCA (initState cfgX)).1.latestData = mapA ∧
    (processData pW cbsW 7 chunkCA (initState cfgX)).2 =
      [pmCLine].map Event.parserCalled ++
        Event.parserCalled pmALine :: Event.storeWrite mapA :: dispatchEvents cbsW mapA ∧
    invocations (dispatchEvents cbsW mapA) = cbsW.map (fun h => (h.id, mapA)) ∧
    (processData pW [] 7 chunkCA (initState cfgX)).1 =
      (processData pW cbsW 7 chunkCA (initState cfgX)).1 := by
  obtain ⟨m, hm1, hm2, hm3, hm4, hm5⟩ := callback_dispatch_order_isolation pW cbsW 7
    chunkCA (initState cfgX) [pmCLine] [] pmALine (by decide) (by decide) (by decide)
  have h0 : pW pmALine = ParseOutcome.val mapA := by decide
  rw [hm1] at h0
  injection h0 with h0
  subst h0
  exact ⟨hm2, hm3, hm4, hm5 []⟩

/-- Helper: applying a mutation never changes the heap at any address other
than its target. -/
theorem applyMut_mem_ne (h2 : Heap) (mu : Mutation) (b : Nat) (hb : b ≠ mu.target) :
    (applyMut h2 mu).mem b = h2.mem b := by
  cases mu with
  | setItem a k v =>
    simp only [Mutation.target] at hb
    simp only [applyMut]
    split
    · simp [heapSet, hb]
    · rfl
  | delItem a k =>
    simp only [Mutation.target] at hb
    simp only [applyMut]
    split
    · simp [heapSet, hb]
    · rfl

/-- Helper: a mutation aimed at an immutable scalar object is impossible and
leaves the heap unchanged. -/
theorem applyMut_scalar_noop (h2 : Heap) (mu : Mutation) (o : PyObj)
    (ho : h2.mem mu.target = some o) (hsc : isScalar o = true) :
    applyMut h2 mu = h2 := by
  cases mu with
  | setItem a k v =>
    simp only [Mutation.target] at ho
    simp only [applyMut]
    split
    · rename_i es2 heq
      rw [ho] at heq
      injection heq with heq2
      subst heq2
      simp [isScalar] at hsc
    · rfl
  | delItem a k =>
    simp only [Mutation.target] at ho
    simp only [applyMut]
    split
    · rename_i es2 heq
      rw [ho] at heq
      injection heq with heq2
      subst heq2
      simp [isScalar] at hsc
    · rfl

/-- C3: get_latest_data hands out a fresh top-level dict object (never the
store itself), handing it out changes nothing the store observes, and — with
ParameterMap values being immutable scalars as the spec defines them — no
sequence of mutations through the returned reference (its own dict, or any
value object reachable from it, which the copy shares with the store) can
change what a later reader of the store observes. -/
theorem get_latest_data_copy_independent
    (h : Heap) (store : Nat) (es : List (String × Nat))
    (hwf : ∀ a, h.next ≤ a → h.mem a = none)
    (hs : h.mem store = some (PyObj.dict es))
    (hscalar : ∀ a ∈ es.map Prod.snd, ∃ o, h.mem a = some o ∧ isScalar o = true)
    (muts : List Mutation)
    (hmut : ∀ mu ∈ muts, mu.target = (getLatestData h store).2 ∨
            mu.target ∈ dictValueAddrs (getLatestData h store).1 (getLatestData h store).2) :
    (getLatestData h store).2 ≠ store ∧
    observeDict (getLatestData h store).1 store = observeDict h store ∧
    observeDict (muts.foldl applyMut (getLatestData h store).1) store = observeDict h store := by
  have hstore_lt : store < h.next := by
    by_contra hge
    rw [hwf store (Nat.le_of_not_lt hge)] at hs
    cases hs
  have hg : getLatestData h store =
      ({ mem := fun a => if a = h.next then some (PyObj.dict es) else h.mem a,
         next := h.next + 1 }, h.next) := by
    unfold getLatestData
    rw [hs]
  have hvalsne : ∀ a ∈ es.map Prod.snd, a ≠ h.next := by
    intro a ha hac
    obtain ⟨o, ho, _⟩ := hscalar a ha
    rw [hac, hwf h.next (Nat.le_refl _)] at ho
    cases ho
  have hmem1 : ∀ b, b ≠ h.next →
      (if b = h.next then some (PyObj.dict es) else h.mem b) = h.mem b := by
    intro b hb
    rw [if_neg hb]
  have hmut2 : ∀ mu ∈ muts, mu.target = h.next ∨ mu.target ∈ es.map Prod.snd := by
    intro mu hm2
    rcases hmut mu hm2 with ht | ht
    · left
      rw [hg] at ht
      exact ht
    · right
      rw [hg] at ht
      simpa [dictValueAddrs] using ht
  have key : ∀ (ms : List Mutation) (h2 : Heap),
      (∀ mu ∈ ms, mu.target = h.next ∨ mu.target ∈ es.map Prod.snd) →
      (∀ b, b ≠ h.next → h2.mem b = h.mem b) →
      ∀ b, b ≠ h.next → (ms.foldl applyMut h2).mem b = h.mem b := by
    intro ms
    induction ms with
    | nil =>
      intro h2 _ hI b hb
      exact hI b hb
    | cons mu ms2 ih =>
      intro h2 hms hI
      simp only [List.foldl_cons]
      apply ih (applyMut h2 mu) (fun m2 hm2 => hms m2 (List.mem_cons_of_mem _ hm2))
      intro b hb
      rcases hms mu (List.mem_cons_self _ _) with ht | ht
      · rw [applyMut_mem_ne h2 mu b (by rw [ht]; exact hb)]
        exact hI b hb
      · obtain ⟨o, ho, hsc⟩ := hscalar mu.target ht
        rw [applyMut_scalar_noop h2 mu o
          (by rw [hI mu.target (hvalsne mu.target ht)]; exact ho) hsc]
        exact hI b hb
  have hobs : ∀ hX : Heap, hX.mem store = h.mem store →
      (∀ a ∈ es.map Prod.snd, hX.mem a = h.mem a) →
      observeDict hX store = observeDict h store := by
    intro hX h1X h2X
    simp only [observeDict, h1X, hs]
    congr 1
    apply List.map_congr_left
    intro kv hkv
    rw [h2X kv.2 (List.mem_map_of_mem Prod.snd hkv)]
  refine ⟨?_, ?_, ?_⟩
  · rw [hg]
    exact Nat.ne_of_gt hstore_lt
  · rw [hg]
    exact hobs _ (hmem1 store (Nat.ne_of_lt hstore_lt))
      (fun a ha => hmem1 a (hvalsne a ha))
  · rw [hg]
    exact hobs _
      (key muts _ hmut2 (fun b hb => hmem1 b hb) store (Nat.ne_of_lt hstore_lt))
      (fun a ha => key muts _ hmut2 (fun b hb => hmem1 b hb) a (hvalsne a ha))

/-- C3 witness: the two-object heap heapW; adding a key to the returned copy,
deleting its existing key and attempting to mutate the shared scalar value
leave the store's observation unchanged. -/
theorem get_latest_data_copy_witness :
    (getLatestData heapW 0).2 ≠ 0 ∧
    observeDict (getLatestData heapW 0).1 0 = observeDict heapW 0 ∧
    observeDict (mutsW.foldl applyMut (getLatestData heapW 0).1) 0 = observeDict heapW 0 := by
  apply get_latest_data_copy_independent heapW 0 [("temp", 1)]
  · intro a ha
    have h2 : 2 ≤ a := ha
    simp only [heapW]
    rw [if_neg (by omega), if_neg (by omega)]
  · rfl
  · intro a ha
    simp only [List.map_cons, List.map_nil, List.mem_singleton] at ha
    subst ha
    exact ⟨PyObj.num 23, rfl, rfl⟩
  · decide

end Hargassner
